import Mathlib

/-!
Verification development for the 2fapc repository: a TOTP (time-based
one-time password) manager with an encrypted secret store.

The JavaScript sources are shallowly embedded as Lean definitions:
  * `totpmgr.js` — the secret registry (`add_totp_key`, `remove_totp_key`,
    `generate`, …) over an in-memory list of TOTP entries;
  * `jsenvaes.js` — the encrypted store (`init_encryption`,
    `read_encrypted_config`, `write_encrypted_config`, `encrypt_data`,
    `decrypt_data`);
  * `jsenv.js` — plain JSON config I/O (`write_config_async`);
  * the hand-rolled TOTP module (`generate_totp`, `decode_b32`,
    `hmac_sha1`, `sha1`) and the crypto-library-backed `generate`.

JavaScript machine integers are embedded as `Nat` with explicit reduction
modulo `2 ^ 32` where the source relies on 32-bit coercions.  External
collaborators (the Node `crypto` library, `hi-base32`, `JSON`, the file
system) are not part of the repository; where a claim depends on them they
are modelled from the specification's contract for them, and each such
definition carries a doc comment starting with `Modelled from the spec:`.
-/

/-- JavaScript `ToUint32`: reduce a mathematical integer to its unsigned
32-bit pattern. -/
def u32 (n : Nat) : Nat := n % 4294967296

/-- `String.prototype.padStart(n, c)`: left-pad to length `n` with `c`;
a string already at least `n` long is returned unchanged. -/
def pad_start (s : String) (n : Nat) (c : Char) : String :=
  String.mk (List.replicate (n - s.length) c) ++ s

/-- Decimal digit character for `n % 10`. -/
def dec_digit (n : Nat) : Char := Char.ofNat (48 + n % 10)

/-- Fueled digit loop of the decimal printer: prepends the low digit of
`n` to `acc` and recurses on `n / 10`.  Fuel `n + 1` always suffices
because `n / 10 + 1 ≤ n` once `n ≥ 10`. -/
def dec_loop : Nat → Nat → List Char → List Char
  | 0, _, acc => acc
  | fuel + 1, n, acc =>
    if n < 10 then dec_digit n :: acc
    else dec_loop fuel (n / 10) (dec_digit n :: acc)

/-- `Number.prototype.toString(10)` on a non-negative integer, embedded as
a fueled base-10 printer. -/
def dec_repr (n : Nat) : String := String.mk (dec_loop (n + 1) n [])

theorem dec_loop_length_le :
    ∀ (d n : Nat) (acc : List Char) (fuel : Nat), n + 1 ≤ fuel → n < 10 ^ (d + 1) →
      (dec_loop fuel n acc).length ≤ acc.length + (d + 1) := by
  intro d
  induction d with
  | zero =>
    intro n acc fuel hfuel hn
    obtain ⟨f, rfl⟩ : ∃ f, fuel = f + 1 := ⟨fuel - 1, by omega⟩
    simp only [dec_loop]
    rw [if_pos (by omega)]
    simp
  | succ d ih =>
    intro n acc fuel hfuel hn
    obtain ⟨f, rfl⟩ : ∃ f, fuel = f + 1 := ⟨fuel - 1, by omega⟩
    simp only [dec_loop]
    by_cases h10 : n < 10
    · rw [if_pos h10]; simp
    · rw [if_neg h10]
      have hdiv : n / 10 < 10 ^ (d + 1) := by
        rw [Nat.div_lt_iff_lt_mul (by norm_num)]
        calc n < 10 ^ (d + 1 + 1) := hn
        _ = 10 ^ (d + 1) * 10 := by ring
      have := ih (n / 10) (dec_digit n :: acc) f (by omega) hdiv
      simp at this ⊢
      omega

theorem dec_repr_length_le {n d : Nat} (hd : 1 ≤ d) (hn : n < 10 ^ d) :
    (dec_repr n).length ≤ d := by
  obtain ⟨d', rfl⟩ : ∃ d', d = d' + 1 := ⟨d - 1, by omega⟩
  have := dec_loop_length_le d' n [] (n + 1) (Nat.le_refl _) hn
  simpa [dec_repr] using this

theorem pad_start_length (s : String) (n : Nat) (c : Char) :
    (pad_start s n c).length = max n s.length := by
  simp [pad_start, String.length_append]
  omega

/-! ## Secret Registry (`src/server/totpmgr.js`)

The registry keeps a process-wide `config = { keys: [...] }`, a list of
TOTP entries, and mutates it through `add_totp_key`, `remove_totp_key`
and `generate`.  State is passed explicitly here: each operation takes
the current config and returns the new one. -/

/-- A TOTP entry as stored by the registry: `{name, platform, description,
key, rank}` (`totpmgr.js`, push in `add_totp_key`). -/
structure TotpEntry where
  name : String
  platform : String
  description : String
  key : String
  rank : Int
deriving DecidableEq, Repr

/-- The registry's config object `{ keys: [...] }`. -/
structure TotpConfig where
  keys : List TotpEntry
deriving DecidableEq, Repr

/-- The frozen example entry `a_totp_key` from `totpmgr.js`. -/
def a_totp_key : TotpEntry :=
  { name := "TOTP Key"
    platform := "https://x.com"
    description := "X login 2FA key"
    rank := 1
    key := "ABCDEFGHIJKLMNOPQRSTUVWXYZ234567" }

/-- Argument object of `add_totp_key`; `rank` may be absent
(`none` embeds JavaScript `undefined`). -/
structure AddTotpArg where
  name : String
  platform : String
  description : String
  key : String
  rank : Option Int
deriving DecidableEq, Repr

/-- JavaScript `obj.rank || 1`: numeric falsy values (absent, `0`) fall
back to `1`. -/
def js_rank_or_one : Option Int → Int
  | none => 1
  | some r => if r = 0 then 1 else r

/-- `add_totp_key(obj)`: pushes
`{name, platform, description, key, rank: obj.rank || 1}` onto
`config.keys` (`totpmgr.js` lines 77–85). -/
def add_totp_key (cfg : TotpConfig) (obj : AddTotpArg) : TotpConfig :=
  { keys := cfg.keys ++
      [{ name := obj.name
         platform := obj.platform
         description := obj.description
         key := obj.key
         rank := js_rank_or_one obj.rank }] }

/-- `Array.prototype.splice(index, 1)` (ECMA-262): a negative `index`
counts from the end and is clamped at `0`; an `index ≥ length` is clamped
to `length` (then nothing is deleted); at most one element is removed.
`splice` never throws for any integer index. -/
def js_splice_delete1 {α : Type} (l : List α) (index : Int) : List α :=
  let actualStart : Nat :=
    if index < 0 then ((l.length : Int) + index).toNat
    else min index.toNat l.length
  l.take actualStart ++ l.drop (actualStart + 1)

/-- `remove_totp_key(index)`: a bare `config.keys.splice(index, 1)`
(`totpmgr.js` lines 110–112).  There is no range check and no failure
channel: the operation always returns a config. -/
def remove_totp_key (cfg : TotpConfig) (index : Int) : TotpConfig :=
  { keys := js_splice_delete1 cfg.keys index }

/-- The member names of the `jsenvaes.js` default export
(`jsenv.js` file 2, lines 392–400): `init_encryption`,
`read_config` and `write_config` only. -/
def jsenvaes_export_members : List String :=
  ["init_encryption", "read_config", "write_config"]

/-- Member access `jsenv_aes.generate_totp` on the `jsenvaes.js` default
export.  The export object has no such member, so the access yields
JavaScript `undefined` (`none`). -/
def jsenvaes_generate_totp : Option (String → String) := none

/-- `generate(index)` of `totpmgr.js` (lines 120–123): looks up
`config.keys[index]` and evaluates
`jsenv_aes.generate_totp(totp_key.key)`.  Calling an `undefined` member
throws a `TypeError`. -/
def tm_generate (cfg : TotpConfig) (index : Nat) : Except String String :=
  if index < cfg.keys.length then
    match jsenvaes_generate_totp with
    | some f =>
      Except.ok (f (cfg.keys.getD index a_totp_key).key)
    | none =>
      Except.error "TypeError: jsenv_aes.generate_totp is not a function"
  else
    Except.error "TypeError: cannot read properties of undefined"

/-- Claim C1: for every valid index, `generate(index)` is claimed to
return `generate_totp(entry.secret, now())`.  In the code the `jsenvaes`
default export has no `generate_totp` member at all, so every call with a
valid index throws a `TypeError` instead of producing a code. -/
theorem generate_delegation_broken :
    "generate_totp" ∉ jsenvaes_export_members ∧
    ∀ (cfg : TotpConfig) (index : Nat), index < cfg.keys.length →
      tm_generate cfg index =
        Except.error "TypeError: jsenv_aes.generate_totp is not a function" := by
  constructor
  · decide
  · intro cfg index h
    simp [tm_generate, if_pos h, jsenvaes_generate_totp]

/-- Witness for C1: the concrete registry holding only the example entry,
queried at index 0. -/
theorem generate_delegation_broken_witness :
    0 < (TotpConfig.mk [a_totp_key]).keys.length ∧
    tm_generate (TotpConfig.mk [a_totp_key]) 0 =
      Except.error "TypeError: jsenv_aes.generate_totp is not a function" :=
  ⟨by decide, generate_delegation_broken.2 (TotpConfig.mk [a_totp_key]) 0 (by decide)⟩

/-- Claim C4: `remove(index)` is claimed to leave the list unchanged and
signal `IndexOutOfRangeError` for indices outside `[0, length)`.  The
code is an unguarded `splice(index, 1)`, which never signals: index `-1`
silently deletes the last entry (a mutation), and index `5` on a
one-element list is a silent no-op. -/
theorem remove_out_of_range_unguarded :
    remove_totp_key (TotpConfig.mk [a_totp_key]) (-1) = TotpConfig.mk [] ∧
    remove_totp_key (TotpConfig.mk [a_totp_key]) 5 = TotpConfig.mk [a_totp_key] := by
  constructor <;> rfl

/-- Claim C10: `add(entry)` appends exactly
`{name, platform, description, key, rank}` with `rank = obj.rank || 1`:
an absent rank and an explicit rank `0` are both stored as `1`, a
non-zero rank is stored unchanged, and the entry goes to the end of the
list. -/
theorem add_totp_key_spec (cfg : TotpConfig) (obj : AddTotpArg) :
    ((obj.rank = none ∨ obj.rank = some 0) →
      (add_totp_key cfg obj).keys = cfg.keys ++
        [{ name := obj.name, platform := obj.platform,
           description := obj.description, key := obj.key, rank := 1 }]) ∧
    (∀ r : Int, obj.rank = some r → r ≠ 0 →
      (add_totp_key cfg obj).keys = cfg.keys ++
        [{ name := obj.name, platform := obj.platform,
           description := obj.description, key := obj.key, rank := r }]) := by
  constructor
  · rintro (h | h) <;> simp [add_totp_key, js_rank_or_one, h]
  · intro r hr hne
    simp [add_totp_key, js_rank_or_one, hr, hne]

/-- Witness for C10: a rank of `0` is stored as `1`, a rank of `5` is
stored unchanged. -/
theorem add_totp_key_spec_witness :
    (add_totp_key (TotpConfig.mk [])
        { name := "n", platform := "p", description := "d", key := "k",
          rank := some 0 }).keys =
      [{ name := "n", platform := "p", description := "d", key := "k", rank := 1 }] ∧
    (add_totp_key (TotpConfig.mk [])
        { name := "n", platform := "p", description := "d", key := "k",
          rank := some 5 }).keys =
      [{ name := "n", platform := "p", description := "d", key := "k", rank := 5 }] :=
  ⟨(add_totp_key_spec (TotpConfig.mk [])
      { name := "n", platform := "p", description := "d", key := "k",
        rank := some 0 }).1 (Or.inr rfl),
   (add_totp_key_spec (TotpConfig.mk [])
      { name := "n", platform := "p", description := "d", key := "k",
        rank := some 5 }).2 5 rfl (by decide)⟩

/-! ## Persistence traces (`jsenv.js`, `jsenvaes.js`, the `part_001` variant)

To reason about atomicity, each writer is embedded as the trace of file
system operations it issues.  A file's content is `some 0` (the prior
content), `some 1` (a completed write of the new content) or `some 2`
(a torn, partially written file); `none` is an absent file.  A crash may
stop the run after any prefix of the trace, possibly tearing the
operation in flight; `rename` is atomic at the file-system level, while a
`writeFile` interrupted mid-write leaves a torn file. -/

/-- A file-system operation issued by a config writer. -/
inductive FsOp where
  | mkdir : String → FsOp
  | writeFile : String → FsOp
  | rename : String → String → FsOp
deriving DecidableEq, Repr

/-- File-system state: path to content (`none` = absent). -/
def FsState : Type := String → Option Nat

/-- Effect of a completed operation. -/
def apply_op (fs : FsState) : FsOp → FsState
  | FsOp.mkdir _ => fs
  | FsOp.writeFile p => fun q => if q = p then some 1 else fs q
  | FsOp.rename src dst =>
      fun q => if q = dst then fs src else if q = src then none else fs q

/-- Effect of crashing in the middle of an operation: a torn `writeFile`
leaves a partially written file (`some 2`); `mkdir` and `rename` are
atomic, so a crash during them changes no file contents. -/
def torn_op (fs : FsState) : FsOp → FsState
  | FsOp.mkdir _ => fs
  | FsOp.writeFile p => fun q => if q = p then some 2 else fs q
  | FsOp.rename _ _ => fs

/-- All file-system states observable after a crash at any point of the
trace: before each operation, mid-operation (torn), and after the last. -/
def crash_results : List FsOp → FsState → List FsState
  | [], fs => [fs]
  | op :: ops, fs => fs :: torn_op fs op :: crash_results ops (apply_op fs op)

/-- `path.dirname`, restricted to what the traces need: the part before
the last `/`, or `.` when there is no `/`. -/
def js_dirname (p : String) : String :=
  let cs := p.toList
  if cs.contains '/' then
    String.mk (((cs.reverse.dropWhile (fun c => c ≠ '/')).drop 1).reverse)
  else "."

/-- `write_config_async(file_path, config)` (`jsenv.js` lines 127–151):
ensures the directory exists, then writes the serialized JSON directly to
the target path with `fs.promises.writeFile` — no temporary file, no
rename. -/
def write_config_async_ops (p : String) : List FsOp :=
  [FsOp.mkdir (js_dirname p), FsOp.writeFile p]

/-- `write_encrypted_config(file_path, config, key)` (`jsenvaes.js` lines
373–382): encrypts the payload and delegates the write to
`jsenv.write_config_async`, so it issues exactly that trace. -/
def write_encrypted_config_ops (p : String) : List FsOp :=
  write_config_async_ops p

/-- `write_encrypted(file_path, config, key)` of the `part_001` variant
(lines 203–255): ensures the directory, writes the envelope to
`file_path + ".tmp"`, then renames the temporary file over the target. -/
def write_encrypted_ops (p : String) : List FsOp :=
  [FsOp.mkdir (js_dirname p),
   FsOp.writeFile (p ++ ".tmp"),
   FsOp.rename (p ++ ".tmp") p]

/-- The config path used by the registry. -/
def demo_cfg_path : String := "./config/config.json"

/-- A prior file system: the target holds the old content, nothing else
exists. -/
def demo_fs : FsState :=
  fun q => if q = demo_cfg_path then some 0 else none

theorem tmp_path_ne (p : String) : ¬ (p = p ++ ".tmp") := by
  intro h
  have hlen : p.length = (p ++ ".tmp").length := by rw [← h]
  rw [String.length_append] at hlen
  have h4 : (".tmp" : String).length = 4 := rfl
  omega

/-- Claim C3 counterexample: the encrypted store used by the registry
(`write_encrypted_config` → `write_config_async`) writes the target file
directly, so a crash mid-write can leave the target torn — neither the
prior content (`some 0`) nor a complete new write (`some 1`). -/
theorem write_encrypted_config_not_atomic :
    ∃ fs ∈ crash_results (write_encrypted_config_ops demo_cfg_path) demo_fs,
      fs demo_cfg_path ≠ some 0 ∧ fs demo_cfg_path ≠ some 1 := by
  refine ⟨torn_op demo_fs (FsOp.writeFile demo_cfg_path), ?_, by decide, by decide⟩
  exact List.Mem.tail _ (List.Mem.tail _ (List.Mem.tail _ (List.Mem.head _)))

/-- Claim C3 (amended): only the `part_001` variant `write_encrypted` is
atomic.  Its write-temp-then-rename trace leaves the target either with
its prior content or with the completely written new content at every
crash point. -/
theorem write_encrypted_atomic (p : String) (fs0 : FsState) (fs : FsState)
    (hmem : fs ∈ crash_results (write_encrypted_ops p) fs0) :
    fs p = fs0 p ∨ fs p = some 1 := by
  have hne : ¬ (p = p ++ ".tmp") := tmp_path_ne p
  simp only [write_encrypted_ops, crash_results, List.mem_cons,
    List.mem_singleton, List.not_mem_nil, or_false] at hmem
  rcases hmem with rfl | rfl | rfl | rfl | rfl | rfl | rfl
  · exact Or.inl rfl
  · exact Or.inl rfl
  · exact Or.inl rfl
  · simp [torn_op, apply_op, hne]
  · simp [apply_op, hne]
  · simp [torn_op, apply_op, hne]
  · simp [apply_op, hne]

/-- Witness for C3's amended theorem: the pre-run state is itself a crash
result (crash before any operation), and it trivially preserves the prior
content. -/
theorem write_encrypted_atomic_witness :
    demo_fs ∈ crash_results (write_encrypted_ops demo_cfg_path) demo_fs ∧
    (demo_fs demo_cfg_path = demo_fs demo_cfg_path ∨
      demo_fs demo_cfg_path = some 1) :=
  ⟨List.Mem.head _,
   write_encrypted_atomic demo_cfg_path demo_fs demo_fs (List.Mem.head _)⟩

/-! ## Encrypted store key lifecycle (`jsenvaes.js` `init_encryption`)

`init_encryption` (lines 246–285) manages the key-descriptor file and the
`.validate` token.  The protocol is embedded with explicit state: the
store holds the (optional) key descriptor and the (optional) validation
envelope.  The external cryptography is modelled from the spec:

  * PBKDF2 (`derive_key`, Node `crypto.pbkdf2`) — `Modelled from the
    spec` (section 4.3): a pure deterministic function of
    `(password, salt)`; modelled as the opaque pair of both, so distinct
    passwords derive distinct keys.
  * AES-256-CBC decryption — `Modelled from the spec` (sections 4.4, 8):
    decrypting with the wrong key fails rather than silently returning a
    different well-formed plaintext; modelled as a symbolic envelope that
    remembers the key it was encrypted under. -/

/-- The persisted key descriptor `{algorithm, salt, created_at}`. -/
structure KeyInfo where
  algorithm : String
  salt : String
  created_at : Int
deriving DecidableEq, Repr

/-- Modelled from the spec: a derived AES key, the opaque result of
PBKDF2 over `(password, salt)` (section 4.3: a pure function of both;
same inputs always yield the same key). -/
structure DKey where
  password : String
  salt : String
deriving DecidableEq, Repr

/-- `derive_key(password, salt_hex)` (`jsenvaes.js` lines 206–237),
with the PBKDF2 core modelled from the spec as above. -/
def derive_key (password salt : String) : DKey :=
  { password := password, salt := salt }

/-- Plaintext of the validation token: `{ valid: true }`. -/
structure ValidDoc where
  valid : Bool
deriving DecidableEq, Repr

/-- Modelled from the spec: a symbolic AES-256-CBC envelope, remembering
the key it was produced under and its plaintext.  (The byte-level
envelope codec is embedded separately as `encrypt_data`/`decrypt_data`.) -/
structure SymEnvelope where
  enc_key : DKey
  doc : ValidDoc
deriving DecidableEq, Repr

/-- Symbolic encryption: record plaintext and key. -/
def sym_encrypt (d : ValidDoc) (k : DKey) : SymEnvelope :=
  { enc_key := k, doc := d }

/-- Modelled from the spec (sections 4.4 and 8): symbolic AES-256-CBC
decryption succeeds exactly under the key the envelope was produced
with; any other key makes the cipher fail instead of returning garbage. -/
def sym_decrypt (env : SymEnvelope) (k : DKey) : Option ValidDoc :=
  if env.enc_key = k then some env.doc else none

/-- The store's persistent state: the key-descriptor file
(`key_file_path`) and the `.validate` token file. -/
structure Store where
  keyfile : Option KeyInfo
  validate : Option SymEnvelope
deriving DecidableEq, Repr

/-- `jsenv.read_config_async(key_file_path, undefined, key_info)`: when
the descriptor file exists its parsed contents are returned; otherwise
the supplied default is written out and returned. -/
def read_keyfile (st : Store) (dflt : KeyInfo) : KeyInfo × Store :=
  match st.keyfile with
  | some ki => (ki, st)
  | none => (dflt, { st with keyfile := some dflt })

/-- `read_encrypted_config(".validate", key)` (`jsenvaes.js` lines
350–364): a missing token file or a failed decryption is caught and
surfaces as `null`. -/
def read_validate (st : Store) (k : DKey) : Option ValidDoc :=
  match st.validate with
  | none => none
  | some env => sym_decrypt env k

/-- The error message thrown for a failed validation
(`jsenvaes.js` line 271). -/
def invalid_password_msg : String :=
  "Password is invalid or the .validate file is missing."

/-- `init_encryption(key_file_path, password)` (`jsenvaes.js` lines
246–285), state passed explicitly.  `fresh_salt` stands for the random
salt generated on entry and `now` for `Date.now()`.  A freshly created
descriptor (detected by `created_at` equality) yields the new key after
writing a validation token; an existing descriptor re-derives the key
from its salt and accepts it only if the `.validate` token decrypts to a
truthy `valid`. -/
def init_encryption (st : Store) (fresh_salt : String) (now : Int)
    (password : String) : Except String (DKey × Store) :=
  let key := derive_key password fresh_salt
  let dflt : KeyInfo :=
    { algorithm := "aes-256-cbc", salt := fresh_salt, created_at := now }
  let ks := read_keyfile st dflt
  let key_info := ks.1
  let st1 := ks.2
  if now = key_info.created_at then
    Except.ok (key, { st1 with validate := some (sym_encrypt { valid := true } key) })
  else
    let ndkey := derive_key password key_info.salt
    match read_validate st1 ndkey with
    | none => Except.error invalid_password_msg
    | some v =>
      if v.valid = false then Except.error invalid_password_msg
      else if key_info.salt = "" then
        Except.error "Invalid key file format: missing valid salt value"
      else Except.ok (ndkey, st1)

/-- Claim C2: against an existing key descriptor whose validation token
was produced under the original password, `init_encryption` with any
other password always fails (the token does not decrypt), and — in full
generality — whenever `init_encryption` does return a key, the store's
validation token decrypts under that key to `{valid: true}`. -/
theorem init_encryption_wrong_password (st : Store) (ki : KeyInfo)
    (fresh_salt : String) (now : Int) (p0 pw : String)
    (hkf : st.keyfile = some ki)
    (hage : ki.created_at ≠ now)
    (hval : st.validate = some (sym_encrypt { valid := true } (derive_key p0 ki.salt)))
    (hpw : pw ≠ p0) :
    init_encryption st fresh_salt now pw = Except.error invalid_password_msg ∧
    ∀ (st2 : Store) (salt2 : String) (now2 : Int) (pw2 : String)
      (k : DKey) (st' : Store),
      init_encryption st2 salt2 now2 pw2 = Except.ok (k, st') →
      ∃ env, st'.validate = some env ∧ sym_decrypt env k = some { valid := true } := by
  constructor
  · have hne : derive_key p0 ki.salt ≠ derive_key pw ki.salt := by
      intro h
      exact hpw (congrArg DKey.password h).symm
    simp [init_encryption, read_keyfile, hkf, read_validate, hval, sym_decrypt,
      sym_encrypt, Ne.symm hage, hne]
  · intro st2 salt2 now2 pw2 k st' hok
    rcases hst2 : st2.keyfile with _ | ki2
    · simp [init_encryption, read_keyfile, hst2] at hok
      obtain ⟨rfl, rfl⟩ := hok
      exact ⟨_, rfl, by simp [sym_decrypt, sym_encrypt]⟩
    · by_cases hnow : now2 = ki2.created_at
      · simp [init_encryption, read_keyfile, hst2, hnow] at hok
        obtain ⟨rfl, rfl⟩ := hok
        exact ⟨_, rfl, by simp [sym_decrypt, sym_encrypt]⟩
      · rcases hv : read_validate st2 (derive_key pw2 ki2.salt) with _ | v
        · simp [init_encryption, read_keyfile, hst2, hnow, hv] at hok
        · by_cases hvv : v.valid = false
          · simp [init_encryption, read_keyfile, hst2, hnow, hv, hvv] at hok
          · by_cases hsalt : ki2.salt = ""
            · rw [hsalt] at hv
              simp [init_encryption, read_keyfile, hst2, hnow, hv, hvv, hsalt] at hok
            · simp [init_encryption, read_keyfile, hst2, hnow, hv, hvv, hsalt] at hok
              obtain ⟨rfl, rfl⟩ := hok
              have hvtrue : v = { valid := true } := by
                cases v with
                | mk b =>
                  cases b with
                  | false => exact absurd rfl hvv
                  | true => rfl
              unfold read_validate at hv
              revert hv
              rcases henv : st2.validate with _ | env
              · intro hv; cases hv
              · intro hv
                refine ⟨env, rfl, ?_⟩
                have hv' : sym_decrypt env (derive_key pw2 ki2.salt) = some v := hv
                rw [hv', hvtrue]

/-- Witness for C2: a concrete store created under password `hunter2`
(salt `aabb`, descriptor written at time 5) rejects the password
`wrong` at time 9. -/
theorem init_encryption_wrong_password_witness :
    ((5 : Int) ≠ 9 ∧ "wrong" ≠ "hunter2") ∧
    init_encryption
      { keyfile := some { algorithm := "aes-256-cbc", salt := "aabb", created_at := 5 }
        validate := some (sym_encrypt { valid := true } (derive_key "hunter2" "aabb")) }
      "freshsalt" 9 "wrong" = Except.error invalid_password_msg :=
  ⟨⟨by decide, by decide⟩,
   (init_encryption_wrong_password
      { keyfile := some { algorithm := "aes-256-cbc", salt := "aabb", created_at := 5 }
        validate := some (sym_encrypt { valid := true } (derive_key "hunter2" "aabb")) }
      { algorithm := "aes-256-cbc", salt := "aabb", created_at := 5 }
      "freshsalt" 9 "hunter2" "wrong" rfl (by decide) rfl (by decide)).1⟩

/-! ## Envelope codec (`jsenvaes.js` `encrypt_data` / `decrypt_data`)

`encrypt_data` (lines 294–312) serializes the payload, encrypts it under
AES-256-CBC with a random 16-byte IV and returns
`{iv: hex(IV), data: hex(ciphertext)}`; `decrypt_data` (lines 322–341)
reverses this.  The hex codec (`Buffer.toString("hex")` /
`Buffer.from(hex)`) and the envelope plumbing are embedded concretely
over byte lists; the payload stands for its serialized bytes, since
`JSON.stringify`/`JSON.parse` are the runtime's inverse pair; the AES
block cipher itself is the external `crypto` library and is modelled
from the spec below. -/

/-- Hex digit character for a value below 16 (lowercase, as
`Buffer.toString("hex")` produces). -/
def hex_digit (n : Nat) : Char :=
  if n < 10 then Char.ofNat (48 + n) else Char.ofNat (87 + n)

/-- One byte as two hex characters. -/
def hex_byte (b : Nat) : List Char := [hex_digit (b / 16), hex_digit (b % 16)]

/-- `Buffer.prototype.toString("hex")`: each byte becomes two lowercase
hex digits. -/
def to_hex (bs : List Nat) : String := String.mk (List.flatten (bs.map hex_byte))

/-- Value of one hex character (both cases), `none` for a non-hex
character. -/
def hex_val (c : Char) : Option Nat :=
  if 48 ≤ c.toNat ∧ c.toNat ≤ 57 then some (c.toNat - 48)
  else if 97 ≤ c.toNat ∧ c.toNat ≤ 102 then some (c.toNat - 87)
  else if 65 ≤ c.toNat ∧ c.toNat ≤ 70 then some (c.toNat - 55)
  else none

/-- `Buffer.from(string, "hex")`: consume hex-digit pairs, stopping at
the first invalid pair or dangling digit (Node's truncating behavior). -/
def from_hex_chars : List Char → List Nat
  | a :: b :: rest =>
    match hex_val a, hex_val b with
    | some x, some y => (16 * x + y) :: from_hex_chars rest
    | _, _ => []
  | _ => []

def from_hex (s : String) : List Nat := from_hex_chars s.toList

theorem hex_val_hex_digit {n : Nat} (h : n < 16) :
    hex_val (hex_digit n) = some n := by
  interval_cases n <;> decide

theorem from_hex_chars_flatten :
    ∀ (bs : List Nat), (∀ b ∈ bs, b < 256) →
      from_hex_chars (List.flatten (bs.map hex_byte)) = bs := by
  intro bs
  induction bs with
  | nil => intro _; rfl
  | cons b rest ih =>
    intro hb
    have hblt : b < 256 := hb b (List.mem_cons_self b rest)
    have hhi : b / 16 < 16 := by omega
    have hlo : b % 16 < 16 := by omega
    have hsplit : List.flatten ((b :: rest).map hex_byte) =
        hex_digit (b / 16) :: hex_digit (b % 16) :: List.flatten (rest.map hex_byte) := by
      simp [hex_byte]
    rw [hsplit]
    simp only [from_hex_chars, hex_val_hex_digit hhi, hex_val_hex_digit hlo]
    rw [ih (fun x hx => hb x (List.mem_cons_of_mem b hx))]
    congr 1
    omega

theorem from_hex_to_hex (bs : List Nat) (hb : ∀ b ∈ bs, b < 256) :
    from_hex (to_hex bs) = bs := by
  have h1 : (to_hex bs).toList = List.flatten (bs.map hex_byte) := rfl
  rw [from_hex, h1, from_hex_chars_flatten bs hb]

/-- Modelled from the spec (sections 4.4 and 8): the AES-256-CBC
encryption of the external `crypto` library, as a symbolic byte-level
cipher.  The spec's contract is that decryption under the same
`(key, iv)` restores the plaintext and decryption under a wrong key
fails; the model tags the plaintext with key and IV. -/
def aes_cbc_encrypt (key iv plain : List Nat) : List Nat :=
  key ++ iv ++ plain

/-- Modelled from the spec (sections 4.4 and 8): AES-256-CBC decryption;
fails (like a CBC padding error) unless key and IV match the ones the
ciphertext was produced under. -/
def aes_cbc_decrypt (key iv ct : List Nat) : Option (List Nat) :=
  if ct.take key.length = key then
    let r := ct.drop key.length
    if r.take iv.length = iv then some (r.drop iv.length) else none
  else none

/-- An encrypted envelope `{iv, data}`, both hex strings. -/
structure Envelope where
  iv : String
  data : String
deriving DecidableEq, Repr

/-- `encrypt_data(data, key)` (`jsenvaes.js` lines 294–312) with the
random IV passed explicitly: envelope of hex-encoded IV and hex-encoded
ciphertext of the serialized payload. -/
def encrypt_data (payload : List Nat) (key : List Nat) (iv : List Nat) : Envelope :=
  { iv := to_hex iv, data := to_hex (aes_cbc_encrypt key iv payload) }

/-- `decrypt_data(encrypted_data, iv_hex, key)` (`jsenvaes.js` lines
322–341): rejects falsy (empty) arguments, hex-decodes IV and
ciphertext, deciphers. -/
def decrypt_data (encrypted_data : String) (iv_hex : String) (key : List Nat) :
    Option (List Nat) :=
  if encrypted_data = "" ∨ iv_hex = "" then none
  else aes_cbc_decrypt key (from_hex iv_hex) (from_hex encrypted_data)

theorem to_hex_ne_empty {bs : List Nat} (h : bs ≠ []) : to_hex bs ≠ "" := by
  rcases bs with _ | ⟨b, rest⟩
  · exact absurd rfl h
  · intro hcontra
    have hdata : (to_hex (b :: rest)).toList = ("" : String).toList := by rw [hcontra]
    simp [to_hex, hex_byte] at hdata

/-- Claim C8: for every payload and every 32-byte key, decrypting the
envelope produced by `encrypt_data` with the same key restores the
payload: the envelope round-trips through the hex codec and the
symmetric cipher. -/
theorem decrypt_encrypt_roundtrip (payload key iv : List Nat)
    (hp : ∀ b ∈ payload, b < 256)
    (hklen : key.length = 32) (hk : ∀ b ∈ key, b < 256)
    (hivlen : iv.length = 16) (hiv : ∀ b ∈ iv, b < 256) :
    decrypt_data (encrypt_data payload key iv).data (encrypt_data payload key iv).iv
      key = some payload := by
  have hct : ∀ b ∈ aes_cbc_encrypt key iv payload, b < 256 := by
    intro b hbm
    simp only [aes_cbc_encrypt, List.mem_append] at hbm
    rcases hbm with (hbm | hbm) | hbm
    · exact hk b hbm
    · exact hiv b hbm
    · exact hp b hbm
  have hctne : aes_cbc_encrypt key iv payload ≠ [] := by
    intro h
    have : (aes_cbc_encrypt key iv payload).length = 0 := by rw [h]; rfl
    simp [aes_cbc_encrypt, hklen, hivlen] at this
  have hivne : iv ≠ [] := by
    intro h; rw [h] at hivlen; simp at hivlen
  simp only [encrypt_data, decrypt_data]
  rw [if_neg (by push_neg; exact ⟨to_hex_ne_empty hctne, to_hex_ne_empty hivne⟩)]
  rw [from_hex_to_hex _ hct, from_hex_to_hex _ hiv]
  simp only [aes_cbc_decrypt, aes_cbc_encrypt]
  rw [List.append_assoc, List.take_left, if_pos rfl, List.drop_left,
    List.take_left, if_pos rfl, List.drop_left]

/-- Witness for C8: a concrete two-byte payload, the all-7 32-byte key
and the all-9 16-byte IV round-trip. -/
theorem decrypt_encrypt_roundtrip_witness :
    (List.replicate 32 7).length = 32 ∧
    decrypt_data (encrypt_data [104, 105] (List.replicate 32 7) (List.replicate 16 9)).data
      (encrypt_data [104, 105] (List.replicate 32 7) (List.replicate 16 9)).iv
      (List.replicate 32 7) = some [104, 105] :=
  ⟨by decide,
   decrypt_encrypt_roundtrip [104, 105] (List.replicate 32 7) (List.replicate 16 9)
     (by decide) (by decide) (by decide) (by decide) (by decide)⟩

/-! ## Hand-rolled Base32 decoder (`decode_b32`, part_003 lines 44–70)

`decode_b32` strips trailing `=`, uppercases, preallocates
`floor(length * 5 / 8)` output bytes from the length of the *unfiltered*
cleaned string, then walks the characters, silently skipping any
character outside the alphabet and packing 5-bit symbols MSB-first into
the preallocated array through a write cursor.  The `while (bits >= 8)`
drain loop is embedded with fuel `bits`, which suffices because every
iteration removes 8 bits. -/

def b32_alphabet : List Char := "ABCDEFGHIJKLMNOPQRSTUVWXYZ234567".toList

/-- `String.prototype.toUpperCase`, per character (the alphabet is
ASCII, so the ASCII uppercase map is the relevant fragment). -/
def js_char_upper (c : Char) : Char := c.toUpper

/-- `str.replace(/=+$/, "")`: remove the trailing run of `=`. -/
def strip_trailing_eq (l : List Char) : List Char :=
  (l.reverse.dropWhile (fun c => c = '=')).reverse

/-- `chars.indexOf(char)` as an optional index (`-1` becomes `none`). -/
def js_b32_index (c : Char) : Option Nat :=
  b32_alphabet.findIdx? (fun x => x = c)

/-- The `while (bits >= 8)` drain of `decode_b32`: emit
`(buf >> bits) & 0xff` at the cursor while at least 8 bits are pending.
`buf >> bits` is the signed shift of the 32-bit pattern, which agrees
with the unsigned shift on the low 15 bits read here. -/
def drain_fuel : Nat → Nat → Nat → Nat → List Nat → Nat × Nat × List Nat
  | 0, _, bits, next, arr => (bits, next, arr)
  | fuel + 1, buf, bits, next, arr =>
    if 8 ≤ bits then
      drain_fuel fuel buf (bits - 8) (next + 1)
        (arr.set next ((buf >>> (bits - 8)) &&& 255))
    else (bits, next, arr)

/-- The character loop of `decode_b32`: state is
`(buf, bits, next, result)`.  Invalid characters `continue`; valid ones
are shifted in (`buf = (buf << 5) | (index & 0x1f)` on the 32-bit
pattern) and the drain loop runs. -/
def b32_loop : List Char → Nat → Nat → Nat → List Nat → List Nat
  | [], _, _, _, arr => arr
  | c :: cs, buf, bits, next, arr =>
    match js_b32_index c with
    | none => b32_loop cs buf bits next arr
    | some i =>
      let buf' := u32 (buf <<< 5) ||| (i &&& 31)
      let d := drain_fuel (bits + 5) buf' (bits + 5) next arr
      b32_loop cs buf' d.1 d.2.1 d.2.2

/-- `decode_b32(str)` (part_003 lines 44–70). -/
def decode_b32 (str : String) : List Nat :=
  let clean := (strip_trailing_eq str.toList).map js_char_upper
  b32_loop clean 0 0 0 (List.replicate (clean.length * 5 / 8) 0)

/-- The same loop over the already-extracted valid symbol indices. -/
def b32_sloop : List Nat → Nat → Nat → Nat → List Nat → List Nat
  | [], _, _, _, arr => arr
  | i :: rest, buf, bits, next, arr =>
    let buf' := u32 (buf <<< 5) ||| (i &&& 31)
    let d := drain_fuel (bits + 5) buf' (bits + 5) next arr
    b32_sloop rest buf' d.1 d.2.1 d.2.2

/-- Pure MSB-first packer of 5-bit symbols: the bytes `decode_b32`
actually writes, without the preallocated array. -/
def pack_symbols : List Nat → Nat → Nat → List Nat
  | [], _, _ => []
  | i :: rest, buf, bits =>
    let buf' := u32 (buf <<< 5) ||| (i &&& 31)
    if 8 ≤ bits + 5 then
      ((buf' >>> (bits + 5 - 8)) &&& 255) :: pack_symbols rest buf' (bits + 5 - 8)
    else pack_symbols rest buf' (bits + 5)

/-- The cleaned character list of `decode_b32` (trailing `=` stripped,
uppercased). -/
def b32_clean (s : String) : List Char :=
  (strip_trailing_eq s.toList).map js_char_upper

/-- The valid symbol indices of the cleaned string. -/
def b32_symbols (s : String) : List Nat :=
  (b32_clean s).filterMap js_b32_index

/-- The cleaned string with the invalid (skipped) characters removed. -/
def b32_strip_invalid (s : String) : List Char :=
  (b32_clean s).filter (fun c => (js_b32_index c).isSome)

theorem drain_done (fuel buf bits next : Nat) (arr : List Nat) (h : bits < 8) :
    drain_fuel fuel buf bits next arr = (bits, next, arr) := by
  cases fuel with
  | zero => rfl
  | succ f => simp only [drain_fuel]; rw [if_neg (by omega)]

theorem drain_one (buf bits next : Nat) (arr : List Nat)
    (h8 : 8 ≤ bits) (h16 : bits < 16) :
    drain_fuel bits buf bits next arr =
      (bits - 8, next + 1, arr.set next ((buf >>> (bits - 8)) &&& 255)) := by
  obtain ⟨f, rfl⟩ : ∃ f, bits = f + 1 := ⟨bits - 1, by omega⟩
  simp only [drain_fuel]
  rw [if_pos (by omega)]
  exact drain_done f buf (f + 1 - 8) (next + 1) _ (by omega)

theorem set_append_boundary (w l2 : List Nat) (v : Nat) :
    (w ++ l2).set w.length v = w ++ l2.set 0 v := by
  induction w with
  | nil => rfl
  | cons a t ih => simp [ih]

theorem b32_loop_eq_sloop :
    ∀ (cs : List Char) (buf bits next : Nat) (arr : List Nat),
      b32_loop cs buf bits next arr =
        b32_sloop (cs.filterMap js_b32_index) buf bits next arr := by
  intro cs
  induction cs with
  | nil => intro buf bits next arr; rfl
  | cons c rest ih =>
    intro buf bits next arr
    rcases h : js_b32_index c with _ | i
    · simp only [b32_loop, h, List.filterMap_cons_none h]
      exact ih buf bits next arr
    · simp only [b32_loop, h, List.filterMap_cons_some h, b32_sloop]
      exact ih _ _ _ _

theorem b32_sloop_pack :
    ∀ (syms : List Nat) (buf bits : Nat) (w : List Nat) (zk : Nat),
      bits < 8 → (pack_symbols syms buf bits).length ≤ zk →
      b32_sloop syms buf bits w.length (w ++ List.replicate zk 0) =
        w ++ pack_symbols syms buf bits ++
          List.replicate (zk - (pack_symbols syms buf bits).length) 0 := by
  intro syms
  induction syms with
  | nil => intro buf bits w zk _ _; simp [b32_sloop, pack_symbols]
  | cons i rest ih =>
    intro buf bits w zk hbits hcap
    by_cases h8 : 8 ≤ bits + 5
    · have hlen : (pack_symbols (i :: rest) buf bits).length =
          (pack_symbols rest (u32 (buf <<< 5) ||| (i &&& 31)) (bits + 5 - 8)).length + 1 := by
        simp only [pack_symbols]
        rw [if_pos h8]
        rfl
      obtain ⟨zk', rfl⟩ : ∃ zk', zk = zk' + 1 := ⟨zk - 1, by omega⟩
      simp only [b32_sloop]
      rw [drain_one _ _ _ _ h8 (by omega)]
      dsimp only
      rw [set_append_boundary]
      have hset : (List.replicate (zk' + 1) 0).set 0
          ((u32 (buf <<< 5) ||| (i &&& 31)) >>> (bits + 5 - 8) &&& 255) =
          ((u32 (buf <<< 5) ||| (i &&& 31)) >>> (bits + 5 - 8) &&& 255) ::
            List.replicate zk' 0 := by
        rw [List.replicate_succ]
        rfl
      rw [hset]
      have hw : w ++ ((u32 (buf <<< 5) ||| (i &&& 31)) >>> (bits + 5 - 8) &&& 255) ::
          List.replicate zk' 0 =
          (w ++ [(u32 (buf <<< 5) ||| (i &&& 31)) >>> (bits + 5 - 8) &&& 255]) ++
            List.replicate zk' 0 := by
        simp
      rw [hw]
      have hwl : w.length + 1 =
          (w ++ [(u32 (buf <<< 5) ||| (i &&& 31)) >>> (bits + 5 - 8) &&& 255]).length := by
        simp
      rw [hwl, ih _ _ _ _ (by omega) (by omega)]
      simp only [pack_symbols]
      rw [if_pos h8]
      simp [Nat.succ_sub_succ]
    · simp only [b32_sloop]
      rw [drain_done _ _ _ _ _ (by omega)]
      dsimp only
      have hpack : pack_symbols (i :: rest) buf bits =
          pack_symbols rest (u32 (buf <<< 5) ||| (i &&& 31)) (bits + 5) := by
        simp only [pack_symbols]
        rw [if_neg h8]
      rw [hpack] at hcap ⊢
      exact ih _ _ _ _ (by omega) hcap

theorem pack_symbols_length :
    ∀ (syms : List Nat) (buf bits : Nat), bits < 8 →
      (pack_symbols syms buf bits).length = (bits + 5 * syms.length) / 8 := by
  intro syms
  induction syms with
  | nil => intro buf bits h; simp [pack_symbols]; omega
  | cons i rest ih =>
    intro buf bits h
    by_cases h8 : 8 ≤ bits + 5
    · simp only [pack_symbols]
      rw [if_pos h8]
      rw [List.length_cons, ih _ _ (by omega), List.length_cons]
      omega
    · simp only [pack_symbols]
      rw [if_neg h8]
      rw [ih _ _ (by omega), List.length_cons]
      omega

theorem findIdx_isSome_iff_mem (l : List Char) (c : Char) :
    (l.findIdx? (fun x => x = c)).isSome = true ↔ c ∈ l := by
  rw [List.findIdx?_isSome]
  simp [List.any_eq_true]

theorem js_b32_index_isSome_iff (c : Char) :
    (js_b32_index c).isSome = true ↔ c ∈ b32_alphabet :=
  findIdx_isSome_iff_mem b32_alphabet c

theorem map_eq_self_of (l : List Char) (f : Char → Char) (h : ∀ c ∈ l, f c = c) :
    l.map f = l := by
  induction l with
  | nil => rfl
  | cons a t ih =>
    simp [h a (List.mem_cons_self a t),
      ih (fun c hc => h c (List.mem_cons_of_mem a hc))]

theorem upper_of_mem_alphabet : ∀ c ∈ b32_alphabet, js_char_upper c = c := by decide

theorem pad_char_not_mem_alphabet : ('=' : Char) ∉ b32_alphabet := by decide

theorem strip_trailing_eq_of_no_eq {l : List Char} (h : ∀ c ∈ l, ¬ c = '=') :
    strip_trailing_eq l = l := by
  unfold strip_trailing_eq
  have hrw : l.reverse.dropWhile (fun c => c = '=') = l.reverse := by
    rcases hrev : l.reverse with _ | ⟨a, t⟩
    · rfl
    · rw [List.dropWhile_cons]
      have ha : a ∈ l := by
        rw [← List.mem_reverse, hrev]
        exact List.mem_cons_self a t
      simp [h a ha]
  rw [hrw, List.reverse_reverse]

theorem filterMap_filter_isSome (l : List Char) :
    (l.filter (fun c => (js_b32_index c).isSome)).filterMap js_b32_index =
      l.filterMap js_b32_index := by
  induction l with
  | nil => rfl
  | cons a t ih =>
    rcases h : js_b32_index a with _ | i
    · simp [List.filter_cons, h, List.filterMap_cons, ih]
    · simp [List.filter_cons, h, List.filterMap_cons, ih]

theorem filterMap_length_of_all_some :
    ∀ (l : List Char), (∀ c ∈ l, (js_b32_index c).isSome = true) →
      (l.filterMap js_b32_index).length = l.length := by
  intro l
  induction l with
  | nil => intro _; rfl
  | cons a t ih =>
    intro h
    rcases ha : js_b32_index a with _ | i
    · have := h a (List.mem_cons_self a t)
      rw [ha] at this
      cases this
    · simp [List.filterMap_cons, ha,
        ih (fun c hc => h c (List.mem_cons_of_mem a hc))]

theorem symbols_length_eq_filter_length (s : String) :
    (b32_symbols s).length = (b32_strip_invalid s).length := by
  have hall : ∀ c ∈ b32_strip_invalid s, (js_b32_index c).isSome = true := by
    intro c hc
    exact (List.mem_filter.mp hc).2
  calc (b32_symbols s).length
      = ((b32_strip_invalid s).filterMap js_b32_index).length := by
        rw [b32_symbols, b32_strip_invalid, filterMap_filter_isSome]
    _ = (b32_strip_invalid s).length := filterMap_length_of_all_some _ hall

theorem decode_b32_eq_pack (s : String) :
    decode_b32 s = pack_symbols (b32_symbols s) 0 0 ++
      List.replicate
        ((b32_clean s).length * 5 / 8 - (pack_symbols (b32_symbols s) 0 0).length)
        0 := by
  have hcap : (pack_symbols (b32_symbols s) 0 0).length ≤ (b32_clean s).length * 5 / 8 := by
    rw [pack_symbols_length _ _ _ (by omega)]
    have hm : (b32_symbols s).length ≤ (b32_clean s).length :=
      List.length_filterMap_le _ _
    apply Nat.div_le_div_right
    omega
  have h := b32_sloop_pack (b32_symbols s) 0 0 []
    ((b32_clean s).length * 5 / 8) (by omega) hcap
  simp only [decode_b32]
  rw [b32_loop_eq_sloop]
  simpa [b32_clean, b32_symbols] using h

theorem decode_b32_strip_invalid (s : String) :
    decode_b32 (String.mk (b32_strip_invalid s)) = pack_symbols (b32_symbols s) 0 0 := by
  have hall : ∀ c ∈ b32_strip_invalid s, (js_b32_index c).isSome = true := by
    intro c hc
    exact (List.mem_filter.mp hc).2
  have hmem : ∀ c ∈ b32_strip_invalid s, c ∈ b32_alphabet := fun c hc =>
    (js_b32_index_isSome_iff c).mp (hall c hc)
  have hne : ∀ c ∈ b32_strip_invalid s, ¬ c = '=' := by
    intro c hc heq
    subst heq
    exact pad_char_not_mem_alphabet (hmem _ hc)
  have hstrip : strip_trailing_eq (b32_strip_invalid s) = b32_strip_invalid s :=
    strip_trailing_eq_of_no_eq hne
  have hupper : (b32_strip_invalid s).map js_char_upper = b32_strip_invalid s :=
    map_eq_self_of _ _ (fun c hc => upper_of_mem_alphabet c (hmem c hc))
  have hclean : (strip_trailing_eq (String.mk (b32_strip_invalid s)).toList).map
      js_char_upper = b32_strip_invalid s := by
    have hlist : (String.mk (b32_strip_invalid s)).toList = b32_strip_invalid s := rfl
    rw [hlist, hstrip, hupper]
  simp only [decode_b32]
  rw [hclean, b32_loop_eq_sloop]
  have hsyms : (b32_strip_invalid s).filterMap js_b32_index = b32_symbols s := by
    rw [b32_strip_invalid, b32_symbols, filterMap_filter_isSome]
  rw [hsyms]
  have hzk : (b32_strip_invalid s).length * 5 / 8 =
      (pack_symbols (b32_symbols s) 0 0).length := by
    rw [pack_symbols_length _ _ _ (by omega), symbols_length_eq_filter_length]
    omega
  have h := b32_sloop_pack (b32_symbols s) 0 0 []
    ((b32_strip_invalid s).length * 5 / 8) (by omega) (by omega)
  simpa [hzk] using h

/-- Claim C9 counterexample: `decode_b32` does *not* return the same
bytes as decoding the input with invalid characters removed.  For
`"A0"` (one valid symbol `A`, one invalid `0`), the preallocated output
length is computed from the unfiltered length, so the skipped `0` leaves
a trailing zero byte: `decode_b32 "A0" = [0]` while
`decode_b32 "A" = []`. -/
theorem decode_b32_counterexample :
    decode_b32 "A0" = [0] ∧ decode_b32 "A" = [] ∧
    b32_strip_invalid "A0" = "A".toList ∧
    decode_b32 "A0" ≠ decode_b32 "A" := by decide

/-- Claim C9 (amended): `decode_b32` strips trailing `=`, decodes
case-insensitively and silently skips invalid characters, but the bytes
it returns are those of the invalid-stripped decode *padded with
trailing zero bytes*: skipped characters still count toward the
preallocated `floor(5·n/8)` output length. -/
theorem decode_b32_skips_invalid_with_pad (s : String) :
    decode_b32 s = decode_b32 (String.mk (b32_strip_invalid s)) ++
      List.replicate
        ((b32_clean s).length * 5 / 8 - (b32_strip_invalid s).length * 5 / 8) 0 := by
  rw [decode_b32_eq_pack s, decode_b32_strip_invalid s]
  congr 2
  rw [pack_symbols_length _ _ _ (by omega), symbols_length_eq_filter_length]
  omega

/-! ## HOTP/TOTP code generation (part_003)

part_003 holds two competing implementations:

  * the hand-rolled `generate_totp` (lines 9–37) with its own
    `decode_b32`/`hmac_sha1`/`sha1` — note that its counter loop
    reassigns a `const` binding, so in JavaScript the function throws a
    `TypeError` on every call before hashing anything;
  * the crypto-library-backed `generate` (lines 225–250) using
    `hi-base32` and Node's HMAC-SHA-1.

The library primitives used by `generate` are external; they are
modelled from the spec's description of the primitive layer
(section 4.1): FIPS 180-1 SHA-1, RFC 2104 HMAC, RFC 4648 Base32. -/

/-- 32-bit rotate left of a 32-bit word. -/
def rotl32 (x s : Nat) : Nat := u32 (x <<< s) ||| (x >>> (32 - s))

/-- Modelled from the spec (section 4.1): the SHA-1 round function for
round `j` (`~b` on the 32-bit pattern is `4294967295 - b`). -/
def sha1_f (j b c d : Nat) : Nat :=
  if j < 20 then (b &&& c) ||| ((4294967295 - b) &&& d)
  else if j < 40 then b ^^^ c ^^^ d
  else if j < 60 then (b &&& c) ||| (b &&& d) ||| (c &&& d)
  else b ^^^ c ^^^ d

/-- Modelled from the spec (section 4.1): the SHA-1 round constants. -/
def sha1_k (j : Nat) : Nat :=
  if j < 20 then 0x5A827999
  else if j < 40 then 0x6ED9EBA1
  else if j < 60 then 0x8F1BBCDC
  else 0xCA62C1D6

/-- Big-endian bytes to 32-bit words. -/
def bytes_to_words : List Nat → List Nat
  | b0 :: b1 :: b2 :: b3 :: rest =>
    ((b0 <<< 24) ||| (b1 <<< 16) ||| (b2 <<< 8) ||| b3) :: bytes_to_words rest
  | _ => []

/-- 32-bit words to big-endian bytes. -/
def words_to_bytes (ws : List Nat) : List Nat :=
  List.flatten (ws.map (fun w =>
    [(w >>> 24) &&& 255, (w >>> 16) &&& 255, (w >>> 8) &&& 255, w &&& 255]))

/-- SHA-1 message-schedule expansion over a newest-first window of the
last 16 words: emits `rotl1 (w[j-3] ^ w[j-8] ^ w[j-14] ^ w[j-16])`. -/
def sha1_expand_rev : Nat → List Nat → List Nat
  | 0, _ => []
  | fuel + 1, win =>
    let w := rotl32 ((win.getD 2 0) ^^^ (win.getD 7 0) ^^^
      (win.getD 13 0) ^^^ (win.getD 15 0)) 1
    w :: sha1_expand_rev fuel ((w :: win).take 16)

/-- The 80 SHA-1 rounds over one block's expanded words. -/
def sha1_rounds : Nat → Nat × Nat × Nat × Nat × Nat → List Nat →
    Nat × Nat × Nat × Nat × Nat
  | _, st, [] => st
  | j, (a, b, c, d, e), w :: rest =>
    let temp := u32 (rotl32 a 5 + sha1_f j b c d + e + sha1_k j + w)
    sha1_rounds (j + 1) (temp, a, rotl32 b 30, c, d) rest

/-- FIPS 180-1 padding: `0x80`, zeros to a 64-byte boundary, then the
64-bit big-endian bit length. -/
def sha1_pad (msg : List Nat) : List Nat :=
  let len := msg.length
  let total := ((len + 8) / 64 + 1) * 64
  msg ++ [128] ++ List.replicate (total - len - 9) 0 ++
    (List.range 8).map (fun i => ((8 * len) >>> (8 * (7 - i))) &&& 255)

/-- One SHA-1 block: schedule expansion, 80 rounds, accumulator update. -/
def sha1_compress (h : Nat × Nat × Nat × Nat × Nat) (block : List Nat) :
    Nat × Nat × Nat × Nat × Nat :=
  let ws := bytes_to_words block
  let words := ws ++ sha1_expand_rev 64 ws.reverse
  match h, sha1_rounds 0 h words with
  | (h0, h1, h2, h3, h4), (a, b, c, d, e) =>
    (u32 (h0 + a), u32 (h1 + b), u32 (h2 + c), u32 (h3 + d), u32 (h4 + e))

/-- Process `fuel` 64-byte blocks. -/
def sha1_outer : Nat → Nat × Nat × Nat × Nat × Nat → List Nat →
    Nat × Nat × Nat × Nat × Nat
  | 0, h, _ => h
  | fuel + 1, h, rest => sha1_outer fuel (sha1_compress h (rest.take 64)) (rest.drop 64)

/-- Modelled from the spec (section 4.1): FIPS 180-1 SHA-1 over bytes —
the hash behind Node's `crypto.createHmac("sha1", ...)`. -/
def sha1 (msg : List Nat) : List Nat :=
  let padded := sha1_pad msg
  match sha1_outer (padded.length / 64)
      (0x67452301, 0xEFCDAB89, 0x98BADCFE, 0x10325476, 0xC3D2E1F0) padded with
  | (h0, h1, h2, h3, h4) => words_to_bytes [h0, h1, h2, h3, h4]

/-- Modelled from the spec (section 4.1): RFC 2104 HMAC-SHA-1 — keys
longer than 64 bytes are first hashed; `ipad`/`opad` XOR the zero-padded
key with `0x36`/`0x5c`. -/
def hmac_sha1 (key msg : List Nat) : List Nat :=
  let kb := if 64 < key.length then sha1 key else key
  let ipad := (List.range 64).map (fun i => (kb.getD i 0) ^^^ 0x36)
  let opad := (List.range 64).map (fun i => (kb.getD i 0) ^^^ 0x5c)
  sha1 (opad ++ sha1 (ipad ++ msg))

/-- The counter-serialization loop of `generate_totp` (part_003 lines
17–21) under the intended `let` binding of `counter` (as written the
loop reassigns a `const`; see `generate_totp`): for `i = 7 .. 0`,
`bytes[i] = counter & 0xff; counter >>>= 8`, where both operators
truncate to the 32-bit pattern first. -/
def loop_bytes : Nat → Nat → List Nat
  | 0, _ => []
  | k + 1, c => loop_bytes k ((c % 4294967296) >>> 8) ++ [(c % 4294967296) &&& 255]

def counter_bytes_js (counter : Nat) : List Nat := loop_bytes 8 counter

/-- `Buffer.writeBigUInt64BE(BigInt(counter))` (part_003 lines 233–234):
a genuine 64-bit big-endian serialization. -/
def be64_bytes (c : Nat) : List Nat :=
  (List.range 8).map (fun i => (c >>> (8 * (7 - i))) &&& 255)

/-- The dynamic-truncation step shared by both implementations
(part_003 lines 26–36 and 241–249): `offset = digest[19] & 0x0f`, pack
4 bytes big-endian with the top bit masked, reduce mod `10^digits`,
render in decimal and left-pad with `0`.  The JavaScript `|` returns the
signed 32-bit pattern, but with the top bit masked every operand is
below `2^31`, so the unsigned embedding agrees. -/
def dynamic_truncate (hmac : List Nat) (digits : Nat) : String :=
  let offset := (hmac.getD (hmac.length - 1) 0) &&& 15
  let binary :=
    (((hmac.getD offset 0) &&& 127) <<< 24) |||
    (((hmac.getD (offset + 1) 0) &&& 255) <<< 16) |||
    (((hmac.getD (offset + 2) 0) &&& 255) <<< 8) |||
    ((hmac.getD (offset + 3) 0) &&& 255)
  let otp := binary % 10 ^ digits
  pad_start (dec_repr otp) digits '0'

/-- The hand-rolled `generate_totp(secret, now_time_utc, ...)` (part_003
lines 9–37).  Line 14 binds `const counter` and line 20 executes
`counter >>>= 8`; assignment to a `const` binding throws a `TypeError`
in JavaScript, so every call fails before any byte is hashed.  The
intended serialization of the loop is `counter_bytes_js`. -/
def generate_totp (secret : String) (now_time_utc : Nat) : Except String String :=
  let _key := decode_b32 secret
  let _counter := now_time_utc / 1000 / 30
  Except.error "TypeError: Assignment to constant variable."

/-- Modelled from the spec (section 4.1): `hibase32.decode` of the
`hi-base32` library as the RFC 4648 Base32 decode — strict about its
alphabet (invalid characters are an error, unlike `decode_b32`), with
trailing `=` padding stripped. -/
def hibase32_decode (s : String) : Except String (List Nat) :=
  let clean := strip_trailing_eq s.toList
  if clean.all (fun c => (js_b32_index c).isSome) then
    Except.ok (pack_symbols (clean.filterMap js_b32_index) 0 0)
  else Except.error "Invalid base32 characters"

/-- The crypto-library-backed `generate(secret, nowtime)` (part_003
lines 225–250): 30-second time step, 6 digits, 64-bit big-endian
counter, library HMAC-SHA-1, shared dynamic truncation. -/
def generate (secret : String) (nowtime : Nat) : Except String String :=
  match hibase32_decode secret with
  | Except.error e => Except.error e
  | Except.ok key =>
    let counter := nowtime / 1000 / 30
    let counter_bytes := be64_bytes counter
    let digest := hmac_sha1 key counter_bytes
    Except.ok (dynamic_truncate digest 6)

theorem loop_bytes_lt :
    ∀ (k c : Nat), c < 4294967296 →
      loop_bytes k c = (List.range k).map (fun i => (c >>> (8 * (k - 1 - i))) &&& 255) := by
  intro k
  induction k with
  | zero => intro c _; rfl
  | succ k ih =>
    intro c hc
    simp only [loop_bytes]
    rw [Nat.mod_eq_of_lt hc]
    have hlt : c >>> 8 < 4294967296 := by
      rw [Nat.shiftRight_eq_div_pow]
      have := Nat.div_le_self c (2 ^ 8)
      omega
    rw [ih (c >>> 8) hlt]
    rw [List.range_succ, List.map_append, List.map_cons, List.map_nil]
    have hmap : (List.range k).map (fun i => ((c >>> 8) >>> (8 * (k - 1 - i))) &&& 255) =
        (List.range k).map (fun i => (c >>> (8 * (k + 1 - 1 - i))) &&& 255) := by
      apply List.map_congr_left
      intro i hi
      have hik : i < k := List.mem_range.mp hi
      have hsh : 8 * (k + 1 - 1 - i) = 8 + 8 * (k - 1 - i) := by omega
      rw [hsh, Nat.shiftRight_add]
    have hlast : [c &&& 255] = [(c >>> (8 * (k + 1 - 1 - k))) &&& 255] := by
      have hz : k + 1 - 1 - k = 0 := by omega
      rw [hz]
      simp
    rw [hmap, hlast]

/-- Claim C5: the counter-serialization loop of `generate_totp` agrees
with true 64-bit big-endian encoding only below `2^32`.  Because the
loop shifts with 32-bit operators, every counter `≥ 2^32` loses its high
bytes: at `2^32` the loop produces eight zero bytes while the correct
encoding (used by `generate` via `writeBigUInt64BE`) is
`[0,0,0,1,0,0,0,0]`.  (As written the loop does not even run: it
reassigns the `const` binding `counter`; see `generate_totp`.) -/
theorem counter_serialization_narrowed :
    (∀ c : Nat, c < 4294967296 → counter_bytes_js c = be64_bytes c) ∧
    counter_bytes_js 4294967296 = [0, 0, 0, 0, 0, 0, 0, 0] ∧
    be64_bytes 4294967296 = [0, 0, 0, 1, 0, 0, 0, 0] ∧
    counter_bytes_js 4294967296 ≠ be64_bytes 4294967296 := by
  refine ⟨?_, by decide, by decide, by decide⟩
  intro c hc
  rw [counter_bytes_js, loop_bytes_lt 8 c hc, be64_bytes]

/-- Witness for C5: the loop and the 64-bit encoding agree at the small
counter `5`. -/
theorem counter_serialization_narrowed_witness :
    5 < 4294967296 ∧ counter_bytes_js 5 = be64_bytes 5 :=
  ⟨by decide, counter_serialization_narrowed.1 5 (by decide)⟩

set_option maxRecDepth 100000

/-- Claim C6: the two TOTP implementations are claimed to return
bit-identical codes for every secret and timestamp.  They do not: the
hand-rolled `generate_totp` throws a `TypeError` on every call (its
counter loop reassigns the `const` binding `counter`), while the
library-backed `generate` returns the RFC 4226/6238 code — here
`996554` for the shared demo secret at 59000 ms (counter 1). -/
theorem totp_implementations_diverge :
    generate_totp "JBSWY3DPEHPK3PXP" 59000 =
      Except.error "TypeError: Assignment to constant variable." ∧
    generate "JBSWY3DPEHPK3PXP" 59000 = Except.ok "996554" ∧
    generate_totp "JBSWY3DPEHPK3PXP" 59000 ≠ generate "JBSWY3DPEHPK3PXP" 59000 := by
  refine ⟨rfl, ?_, ?_⟩
  · rfl
  · intro h
    have h2 : Except.error (α := String) (ε := String)
        "TypeError: Assignment to constant variable." = Except.ok "996554" := h
    cases h2

/-- The claim's offset: `digest[19] & 0x0F`. -/
def dt_offset (digest : List Nat) : Nat := (digest.getD 19 0) &&& 15

/-- The claim's truncated value: 4 bytes at `digest[offset..offset+4]`
packed big-endian with the top bit of the first byte masked by `0x7F`. -/
def dt_value (digest : List Nat) : Nat :=
  (((digest.getD (dt_offset digest) 0) &&& 127) <<< 24) |||
  (((digest.getD (dt_offset digest + 1) 0) &&& 255) <<< 16) |||
  (((digest.getD (dt_offset digest + 2) 0) &&& 255) <<< 8) |||
  ((digest.getD (dt_offset digest + 3) 0) &&& 255)

/-- Claim C7 counterexample: the claim quantifies over *every* digit
count, but at `digits = 0` the code returns `"0"` (`padStart(0)` never
truncates), which does not have "exactly `digits` characters". -/
theorem dynamic_truncate_digits_zero :
    dynamic_truncate (List.range 20) 0 = "0" ∧
    (dynamic_truncate (List.range 20) 0).length ≠ 0 := by decide

/-- Claim C7 (amended): for every 20-byte digest and every digit count
`≥ 1`, the dynamic-truncation step computes `offset = digest[19] & 0x0F`,
packs `digest[offset..offset+4]` big-endian with the top bit masked —
a value below `2^31` — and returns that value mod `10^digits`, rendered
in decimal and left-padded with `'0'` to exactly `digits` characters. -/
theorem dynamic_truncate_spec (digest : List Nat) (digits : Nat)
    (hlen : digest.length = 20) (hdig : 1 ≤ digits) :
    dynamic_truncate digest digits =
      pad_start (dec_repr (dt_value digest % 10 ^ digits)) digits '0' ∧
    dt_value digest < 2147483648 ∧
    (dynamic_truncate digest digits).length = digits := by
  have hvlt : dt_value digest < 2147483648 := by
    unfold dt_value
    have h24 : (((digest.getD (dt_offset digest) 0) &&& 127) <<< 24) < 2 ^ 31 := by
      have hb : (digest.getD (dt_offset digest) 0) &&& 127 ≤ 127 := Nat.and_le_right
      rw [Nat.shiftLeft_eq]
      omega
    have h16 : (((digest.getD (dt_offset digest + 1) 0) &&& 255) <<< 16) < 2 ^ 31 := by
      have hb : (digest.getD (dt_offset digest + 1) 0) &&& 255 ≤ 255 := Nat.and_le_right
      rw [Nat.shiftLeft_eq]
      omega
    have h8 : (((digest.getD (dt_offset digest + 2) 0) &&& 255) <<< 8) < 2 ^ 31 := by
      have hb : (digest.getD (dt_offset digest + 2) 0) &&& 255 ≤ 255 := Nat.and_le_right
      rw [Nat.shiftLeft_eq]
      omega
    have h0 : ((digest.getD (dt_offset digest + 3) 0) &&& 255) < 2 ^ 31 := by
      have hb : (digest.getD (dt_offset digest + 3) 0) &&& 255 ≤ 255 := Nat.and_le_right
      omega
    exact Nat.or_lt_two_pow (Nat.or_lt_two_pow (Nat.or_lt_two_pow h24 h16) h8) h0
  have h19 : digest.length - 1 = 19 := by omega
  have heq : dynamic_truncate digest digits =
      pad_start (dec_repr (dt_value digest % 10 ^ digits)) digits '0' := by
    unfold dynamic_truncate dt_value dt_offset
    rw [h19]
  refine ⟨heq, hvlt, ?_⟩
  rw [heq, pad_start_length]
  have hmlt : dt_value digest % 10 ^ digits < 10 ^ digits :=
    Nat.mod_lt _ (by positivity)
  have hlen2 : (dec_repr (dt_value digest % 10 ^ digits)).length ≤ digits :=
    dec_repr_length_le hdig hmlt
  omega

/-- Witness for C7's amended theorem: the digest `[0, …, 19]` at the
default 6 digits. -/
theorem dynamic_truncate_spec_witness :
    (List.range 20).length = 20 ∧ 1 ≤ 6 ∧
    (dynamic_truncate (List.range 20) 6 =
      pad_start (dec_repr (dt_value (List.range 20) % 10 ^ 6)) 6 '0' ∧
    dt_value (List.range 20) < 2147483648 ∧
    (dynamic_truncate (List.range 20) 6).length = 6) :=
  ⟨by decide, by decide, dynamic_truncate_spec (List.range 20) 6 (by decide) (by decide)⟩
